import Mathlib

/-!
# pokeapitui: grouping, fetch clients and the selection handler of `main.go`

A shallow embedding of `src/main.go`.

* Go strings are byte sequences (`GoString`); `s[0]` is a byte, `<` on strings
  compares byte-wise.
* `map[string][]PokemonListEntry` is an association list with distinct keys; the
  order in which `range` yields its keys is an input of the model, and so is the
  rearrangement the unstable `sort.Slice` applies (`SortsByName` is its contract).
* The network, `json.Unmarshal` and the scheduler are inputs of the model: the
  fetch functions take the outcome of `http.Get` and a decoder, the selection
  handler is a step function over events (a selection, the completion of a
  background fetch, the event loop draining one queued update).
-/

namespace PokeApiTui

/-! ## Go strings -/

/-- A Go `byte`. -/
abbrev Byte := Fin 256

/-- A Go `string`: an immutable sequence of bytes. -/
abbrev GoString := List Byte

/-- The function `utf8.AppendRune`: the UTF-8 encoding of a code point; surrogates and
values above U+10FFFF are encoded as U+FFFD. -/
def utf8Encode (r : Nat) : GoString :=
  if r < 0x80 then [Fin.ofNat r]
  else if r < 0x800 then [Fin.ofNat (0xC0 + r / 64), Fin.ofNat (0x80 + r % 64)]
  else if (0xD800 ≤ r ∧ r < 0xE000) ∨ 0x10FFFF < r then [0xEF, 0xBF, 0xBD]
  else if r < 0x10000 then
    [Fin.ofNat (0xE0 + r / 4096), Fin.ofNat (0x80 + r / 64 % 64), Fin.ofNat (0x80 + r % 64)]
  else
    [Fin.ofNat (0xF0 + r / 262144), Fin.ofNat (0x80 + r / 4096 % 64),
      Fin.ofNat (0x80 + r / 64 % 64), Fin.ofNat (0x80 + r % 64)]

/-- A Go string literal: the UTF-8 bytes of the text. -/
def str (s : String) : GoString :=
  s.toList.foldr (fun c acc => utf8Encode c.toNat ++ acc) []

/-- The function `unicode.ToUpper` on the code points U+0000..U+00FF (the case ranges of
Go's Unicode tables in that block); a code point above U+00FF is returned unchanged, the
program never passes one. -/
def unicodeToUpper (r : Nat) : Nat :=
  if 0x61 ≤ r ∧ r ≤ 0x7A then r - 32
  else if r = 0xB5 then 0x39C
  else if 0xE0 ≤ r ∧ r ≤ 0xF6 then r - 32
  else if 0xF8 ≤ r ∧ r ≤ 0xFE then r - 32
  else if r = 0xFF then 0x178
  else r

/-- The expression `strings.ToUpper(string(b))` for a byte `b`: the conversion
`string(b)` yields the UTF-8 encoding of the code point numbered `b`, and `ToUpper` maps
that one code point. -/
def upperOfByte (b : Byte) : GoString :=
  utf8Encode (unicodeToUpper b.val)

/-- The comparison `a < b` on Go strings: byte-wise lexicographic. -/
def strLess : GoString → GoString → Bool
  | [], [] => false
  | [], _ :: _ => true
  | _ :: _, [] => false
  | a :: as, b :: bs => if a < b then true else if b < a then false else strLess as bs

/-- Whether a byte is a UTF-8 continuation byte (0x80..0xBF). -/
def isCont (b : Byte) : Bool := decide (0x80 ≤ b.val ∧ b.val ≤ 0xBF)

/-- The code point `utf8.DecodeRuneInString` returns: the first character of a string
(`none` for the empty string, U+FFFD for bytes that do not start a well-formed
sequence). -/
def firstRune : GoString → Option Nat
  | [] => none
  | a :: rest =>
    if a.val < 0x80 then some a.val
    else if 0xC2 ≤ a.val ∧ a.val ≤ 0xDF then
      match rest with
      | b :: _ =>
        if isCont b then some ((a.val - 0xC0) * 64 + (b.val - 0x80)) else some 0xFFFD
      | [] => some 0xFFFD
    else if 0xE0 ≤ a.val ∧ a.val ≤ 0xEF then
      match rest with
      | b :: c :: _ =>
        if (if a.val = 0xE0 then 0xA0 else 0x80) ≤ b.val ∧
            b.val ≤ (if a.val = 0xED then 0x9F else 0xBF) ∧ isCont c then
          some ((a.val - 0xE0) * 4096 + (b.val - 0x80) * 64 + (c.val - 0x80))
        else some 0xFFFD
      | _ => some 0xFFFD
    else if 0xF0 ≤ a.val ∧ a.val ≤ 0xF4 then
      match rest with
      | b :: c :: d :: _ =>
        if (if a.val = 0xF0 then 0x90 else 0x80) ≤ b.val ∧
            b.val ≤ (if a.val = 0xF4 then 0x8F else 0xBF) ∧ isCont c ∧ isCont d then
          some ((a.val - 0xF0) * 262144 + (b.val - 0x80) * 4096 + (c.val - 0x80) * 64
            + (d.val - 0x80))
        else some 0xFFFD
      | _ => some 0xFFFD
    else some 0xFFFD

/-! ## Catalog entries and the grouping step of `fetchPokemonList` -/

/-- The struct `PokemonListEntry`. -/
structure PokemonListEntry where
  Name : GoString
  URL : GoString
  deriving DecidableEq, Repr

/-- The struct `PokemonListResponse`. -/
structure PokemonListResponse where
  Results : List PokemonListEntry
  deriving DecidableEq, Repr

/-- A value of `map[string][]PokemonListEntry`: bindings with distinct keys. -/
abbrev GoMap := List (GoString × List PokemonListEntry)

/-- The expression `m[k]`: the bound slice, or the zero value (nil slice) when `k` is
absent. -/
def GoMap.get : GoMap → GoString → List PokemonListEntry
  | [], _ => []
  | (k', v) :: m, k => if k' = k then v else GoMap.get m k

/-- The assignment `m[k] = v`. -/
def GoMap.set : GoMap → GoString → List PokemonListEntry → GoMap
  | [], k, v => [(k, v)]
  | (k', v') :: m, k, v => if k' = k then (k, v) :: m else (k', v') :: GoMap.set m k v

/-- The keys bound in a map. -/
def GoMap.keys (m : GoMap) : List GoString := m.map Prod.fst

/-- The value a Go run-time panic carries. -/
structure Panic where
  msg : GoString
  deriving DecidableEq, Repr

/-- The panic raised by `s[0]` on an empty string. -/
def indexOutOfRange : Panic :=
  ⟨str "runtime error: index out of range [0] with length 0"⟩

/-- The loop of lines 83-86 run on the map `groups`: for each entry, index byte 0 of the
name (a panic on an empty name), upper-case it, and append the entry to that bucket. -/
def groupLoop : List PokemonListEntry → GoMap → Except Panic GoMap
  | [], groups => .ok groups
  | p :: rest, groups =>
    match p.Name with
    | [] => .error indexOutOfRange
    | b :: _ =>
      let letter := upperOfByte b
      groupLoop rest (groups.set letter (groups.get letter ++ [p]))

/-- Lines 82-86: the grouping loop started on the empty map. -/
def groupEntries (results : List PokemonListEntry) : Except Panic GoMap :=
  groupLoop results []

/-- The order `sort.Strings` sorts by: `a <= b` as `!(b < a)`. -/
def strLe (a b : GoString) : Prop := strLess b a = false

instance : DecidableRel strLe := fun a b => inferInstanceAs (Decidable (strLess b a = false))

/-- The order `sort.Slice` is given at line 100: entries compared by `Name`. -/
def nameLe (a b : PokemonListEntry) : Prop := strLess b.Name a.Name = false

instance : DecidableRel nameLe :=
  fun a b => inferInstanceAs (Decidable (strLess b.Name a.Name = false))

/-- The call `sort.Strings(letters)`; the library sorts short slices by insertion, and
every correct sort of strings returns the same slice. -/
def sortStrings (letters : List GoString) : List GoString :=
  letters.insertionSort strLe

/-- What package `sort` promises of the call `sort.Slice` of lines 100-102, `sortSlice`
being the rearrangement the library applies to `entries`: the result holds the same
entries and no entry is followed by one of smaller `Name`. The sort is not stable, so the
order among entries of equal name is the library's choice and stays an input. -/
def SortsByName (sortSlice : List PokemonListEntry → List PokemonListEntry) : Prop :=
  ∀ entries, (sortSlice entries).Perm entries ∧ (sortSlice entries).Pairwise nameLe

/-- Sorting by insertion, the way package `sort` handles slices of fewer than 12 elements;
one rearrangement that meets `SortsByName`. -/
def insertionSortByName (entries : List PokemonListEntry) : List PokemonListEntry :=
  entries.insertionSort nameLe

/-- The colours the program gives to tree nodes. -/
inductive Color where
  | primaryText
  | yellow
  | green
  deriving DecidableEq, Repr

/-- The fields of `tview.TreeNode` the program sets or reads. -/
inductive TreeNode where
  | mk (text : GoString) (color : Color) (expanded : Bool) (selectable : Bool)
      (reference : Option PokemonListEntry) (children : List TreeNode)

/-- The text of a node. -/
def TreeNode.text : TreeNode → GoString
  | .mk t _ _ _ _ _ => t

/-- The colour of a node. -/
def TreeNode.color : TreeNode → Color
  | .mk _ c _ _ _ _ => c

/-- The result of `IsExpanded`. -/
def TreeNode.expanded : TreeNode → Bool
  | .mk _ _ e _ _ _ => e

/-- Whether the node can be selected. -/
def TreeNode.selectable : TreeNode → Bool
  | .mk _ _ _ s _ _ => s

/-- The result of `GetReference` (`none` is Go's nil). -/
def TreeNode.reference : TreeNode → Option PokemonListEntry
  | .mk _ _ _ _ r _ => r

/-- The children of a node, in the order `AddChild` added them. -/
def TreeNode.children : TreeNode → List TreeNode
  | .mk _ _ _ _ _ cs => cs

/-- The call `SetExpanded`. -/
def TreeNode.setExpanded : TreeNode → Bool → TreeNode
  | .mk t c _ s r cs, e => .mk t c e s r cs

/-- Lines 104-106: the leaf built for one entry. -/
def leafNode (entry : PokemonListEntry) : TreeNode :=
  .mk entry.Name .primaryText true true (some entry) []

/-- Lines 96-109: the header node of letter `l` with one child per entry of its bucket,
the bucket rearranged by `sort.Slice`. -/
def groupNode (sortSlice : List PokemonListEntry → List PokemonListEntry) (groups : GoMap)
    (l : GoString) : TreeNode :=
  .mk l .yellow true true none ((sortSlice (groups.get l)).map leafNode)

/-- Lines 92-110: `letters` holds the keys in the order `range groups` yielded them. -/
def buildNodes (sortSlice : List PokemonListEntry → List PokemonListEntry) (groups : GoMap)
    (letters : List GoString) : List TreeNode :=
  (sortStrings letters).map (groupNode sortSlice groups)

/-- Lines 82-110 of `fetchPokemonList`: grouping, then building the nodes, the keys taken
in the order `rangeKeys` gives. -/
def groupingStep (results : List PokemonListEntry)
    (sortSlice : List PokemonListEntry → List PokemonListEntry)
    (rangeKeys : GoMap → List GoString) : Except Panic (List TreeNode) :=
  match groupEntries results with
  | .error p => .error p
  | .ok groups => .ok (buildNodes sortSlice groups (rangeKeys groups))

/-- The entries attached to the children of a group node. -/
def TreeNode.members (n : TreeNode) : List PokemonListEntry :=
  n.children.filterMap TreeNode.reference

/-- The names shown by the children of a group node. -/
def TreeNode.childTexts (n : TreeNode) : List GoString :=
  n.children.map TreeNode.text

/-! ## The fetch functions -/

/-- A non-nil Go `error`, as the text its `Error` method returns (what `%v` prints). -/
structure GoError where
  msg : GoString
  deriving DecidableEq, Repr

/-- The fields of `http.Response` the program reads; `Body` is what `io.ReadAll(resp.Body)`
returns. -/
structure Response where
  StatusCode : Int
  Body : Except GoError GoString

/-- The verb `%d` of package `fmt` applied to an `int`. -/
def fmtInt (n : Int) : GoString := str (toString n)

/-- The constant `apiURL`. -/
def apiURL : GoString := str "https://pokeapi.co/api/v2"

/-- The value `fmt.Errorf("status code %d", code)`. -/
def statusError (code : Int) : GoError := ⟨str "status code " ++ fmtInt code⟩

/-- How a call of a Go function with results `(T, error)` ends. -/
inductive Outcome (α : Type) where
  | panicked (p : Panic)
  | failed (err : GoError)
  | returned (a : α)

/-- The function `fetchPokemonList`. Its inputs are the network (`httpGet`, the outcome of
`http.Get` on a URL), the decoder (`unmarshal`, `json.Unmarshal` into a
`PokemonListResponse`), the rearrangement `sort.Slice` applies and the order in which
`range` yields the keys of a map. Lines 82-110 are `groupingStep`. -/
def fetchPokemonList (httpGet : GoString → Except GoError Response)
    (unmarshal : GoString → Except GoError PokemonListResponse)
    (sortSlice : List PokemonListEntry → List PokemonListEntry)
    (rangeKeys : GoMap → List GoString) : Outcome (List TreeNode) :=
  match httpGet (apiURL ++ str "/pokemon?limit=10000") with
  | .error err => .failed err
  | .ok resp =>
    if resp.StatusCode ≠ 200 then .failed (statusError resp.StatusCode)
    else
      match resp.Body with
      | .error err => .failed err
      | .ok body =>
        match unmarshal body with
        | .error err => .failed err
        | .ok listResp =>
          match groupingStep listResp.Results sortSlice rangeKeys with
          | .error p => .panicked p
          | .ok nodes => .returned nodes

/-- The struct `PokemonType`; `TypeName` is the field `Type.Name`. -/
structure PokemonType where
  TypeName : GoString
  deriving DecidableEq, Repr

/-- The struct `PokemonAbility`; `AbilityName` is the field `Ability.Name`. -/
structure PokemonAbility where
  AbilityName : GoString
  deriving DecidableEq, Repr

/-- The struct `PokemonStat`; `StatName` is the field `Stat.Name`. -/
structure PokemonStat where
  StatName : GoString
  BaseStat : Int
  deriving DecidableEq, Repr

/-- The struct `PokemonDetails`. -/
structure PokemonDetails where
  Name : GoString
  ID : Int
  Height : Int
  Weight : Int
  BaseExperience : Int
  Types : List PokemonType
  Abilities : List PokemonAbility
  Stats : List PokemonStat
  deriving DecidableEq, Repr

/-- The zero value `PokemonDetails{}`. -/
def PokemonDetails.zero : PokemonDetails := ⟨[], 0, 0, 0, 0, [], [], []⟩

/-- The function `fetchPokemonDetails`. -/
def fetchPokemonDetails (httpGet : GoString → Except GoError Response)
    (unmarshal : GoString → Except GoError PokemonDetails) (url : GoString) :
    Except GoError PokemonDetails :=
  match httpGet url with
  | .error err => .error err
  | .ok resp =>
    if resp.StatusCode ≠ 200 then .error (statusError resp.StatusCode)
    else
      match resp.Body with
      | .error err => .error err
      | .ok body =>
        match unmarshal body with
        | .error err => .error err
        | .ok details => .ok details

/-! ## The selection handler -/

/-- The execution context a piece of code runs on: the event loop of the application,
which owns the widgets, or a goroutine started with `go`. -/
inductive Ctx where
  | ui
  | background
  deriving DecidableEq, Repr

/-- A mutation of the `details` text view. -/
inductive PaneOp where
  | clear
  | write (text : GoString)
  deriving DecidableEq, Repr

/-- The function literal handed to `app.QueueUpdateDraw` (lines 176-200), as the
variables it captures: `detail` and `err` (`none` is nil). -/
structure Update where
  detail : PokemonDetails
  err : Option GoError
  deriving DecidableEq, Repr

/-- The state the selection handler works on. `details` is the text buffer of the
`details` view (what was written since the last `Clear`), `tasks` the goroutines started
at line 174 whose fetch has not returned, `updates` the queue of `QueueUpdateDraw` in the
order of the calls. The other fields
record history: `trace` every `Clear` and write on `details` with the context that
performed it, `fetches` the argument of every call of `fetchPokemonDetails`, `lastDrawn`
the queued function the event loop ran last, `current` the entry selected last. -/
structure App where
  details : GoString
  trace : List (Ctx × PaneOp)
  tasks : List PokemonListEntry
  updates : List Update
  fetches : List GoString
  lastDrawn : Option Update
  current : Option PokemonListEntry

/-- The state when `Run` starts: an empty text view, nothing in flight. -/
def App.init : App := ⟨[], [], [], [], [], none, none⟩

/-- The call `details.Clear()` performed on context `ctx`. -/
def App.clearDetails (ctx : Ctx) (a : App) : App :=
  { a with details := [], trace := a.trace ++ [(ctx, PaneOp.clear)] }

/-- A write of `text` to `details` (an `fmt.Fprintf`) performed on context `ctx`. -/
def App.writeDetails (ctx : Ctx) (a : App) (text : GoString) : App :=
  { a with details := a.details ++ text, trace := a.trace ++ [(ctx, PaneOp.write text)] }

/-- The text of the placeholder written at line 173. -/
def loadingText (entry : PokemonListEntry) : GoString :=
  str "Loading " ++ entry.Name ++ str "...\n"

/-- The text written at line 179. -/
def errorText (err : GoError) : GoString :=
  str "[red]Error:[-] " ++ err.msg

/-- The text written at lines 191-196. -/
def headerText (detail : PokemonDetails) : GoString :=
  str "Name: " ++ detail.Name ++ str "\nID: " ++ fmtInt detail.ID ++
  str "\nHeight: " ++ fmtInt detail.Height ++ str "\nWeight: " ++ fmtInt detail.Weight ++
  str "\nBase XP: " ++ fmtInt detail.BaseExperience ++
  str "\nTypes: " ++ (str ", ").intercalate (detail.Types.map PokemonType.TypeName) ++
  str "\nAbilities: " ++
    (str ", ").intercalate (detail.Abilities.map PokemonAbility.AbilityName) ++
  str "\nStats:\n"

/-- The text written at line 198 for one stat. -/
def statText (s : PokemonStat) : GoString :=
  str "  " ++ s.StatName ++ str ": " ++ fmtInt s.BaseStat ++ str "\n"

/-- The body of the selection callback up to the `go` statement (lines 166-174), run on
context `ctx`; it returns the state and the node it was given. -/
def selectedFunc (ctx : Ctx) (a : App) (node : TreeNode) : App × TreeNode :=
  match node.reference with
  | none => (a, node.setExpanded (!node.expanded))
  | some entry =>
    let a := a.clearDetails ctx
    let a := a.writeDetails ctx (loadingText entry)
    ({ a with tasks := a.tasks ++ [entry], current := some entry }, node)

/-- The values of `detail, err` after line 175. -/
def Update.ofResult : Except GoError PokemonDetails → Update
  | .ok detail => ⟨detail, none⟩
  | .error err => ⟨PokemonDetails.zero, some err⟩

/-- The body of the goroutine (lines 175-200) for the captured `entry`, run on context
`ctx` at the moment the network answers as `httpGet`: it calls `fetchPokemonDetails` and
hands the function literal to `QueueUpdateDraw`. -/
def goroutineBody (_ctx : Ctx) (httpGet : GoString → Except GoError Response)
    (unmarshal : GoString → Except GoError PokemonDetails) (a : App)
    (entry : PokemonListEntry) : App :=
  let result := fetchPokemonDetails httpGet unmarshal entry.URL
  { a with fetches := a.fetches ++ [entry.URL], updates := a.updates ++ [Update.ofResult result] }

/-- The body of the queued function literal (lines 177-199), run on context `ctx`. -/
def runUpdate (ctx : Ctx) (a : App) (u : Update) : App :=
  let a := a.clearDetails ctx
  match u.err with
  | some err => a.writeDetails ctx (errorText err)
  | none =>
    let a := a.writeDetails ctx (headerText u.detail)
    u.detail.Stats.foldl (fun acc s => acc.writeDetails ctx (statText s)) a

/-- What can happen next. `selected node`: the tree view calls the selection callback on
`node`. `fetched i httpGet`: the fetch of the `i`-th goroutine in flight returns, the
network answering as `httpGet`. `drain`: the event loop takes the next queued function
and runs it. -/
inductive Event where
  | selected (node : TreeNode)
  | fetched (i : Nat) (httpGet : GoString → Except GoError Response)
  | drain

/-- The context an event runs on: callbacks of the tree view and queued functions run on
the event loop, the body of a `go` statement on its own goroutine. -/
def Event.ctx : Event → Ctx
  | .selected _ => .ui
  | .fetched _ _ => .background
  | .drain => .ui

/-- One step of the program. -/
def step (unmarshal : GoString → Except GoError PokemonDetails) (a : App) (ev : Event) : App :=
  match ev with
  | .selected node => (selectedFunc ev.ctx a node).1
  | .fetched i httpGet =>
    match a.tasks[i]? with
    | none => a
    | some entry =>
      goroutineBody ev.ctx httpGet unmarshal { a with tasks := a.tasks.eraseIdx i } entry
  | .drain =>
    match a.updates with
    | [] => a
    | u :: rest => runUpdate ev.ctx { a with updates := rest, lastDrawn := some u } u

/-- A run of the program over a schedule of events. -/
def run (unmarshal : GoString → Except GoError PokemonDetails) (a : App) (evs : List Event) :
    App :=
  evs.foldl (step unmarshal) a

/-- The texts a queued function writes to `details` after its `Clear`, in order. -/
def Update.writes (u : Update) : List GoString :=
  match u.err with
  | some err => [errorText err]
  | none => headerText u.detail :: u.detail.Stats.map statText

/-- The content of `details` a queued function leaves behind. -/
def Update.render (u : Update) : GoString := u.writes.flatten

/-- The number of line breaks in a text. -/
def lineBreaks (s : GoString) : Nat := s.count 0x0A

/-- The key the grouping loop files an entry under (the empty name, on which the loop
panics, is given the empty key). -/
def letterOf (e : PokemonListEntry) : GoString :=
  match e.Name with
  | [] => []
  | b :: _ => upperOfByte b

/-- The upper-cased first character of a name, the key as the comment on
`fetchPokemonList` describes it ("groups them by first letter"): decode the first UTF-8
character, map it to upper case, encode it. Exact for first characters up to U+00FF, the
range `unicodeToUpper` covers. -/
def upperFirstChar (name : GoString) : Option GoString :=
  (firstRune name).map (fun r => utf8Encode (unicodeToUpper r))

/-- The texts of the group headers with the texts of their children. -/
def groupView (nodes : List TreeNode) : List (GoString × List GoString) :=
  nodes.map (fun n => (n.text, n.childTexts))

/-- The three catalog entries of the example: pikachu, Pidgey, bulbasaur. -/
def sampleEntries : List PokemonListEntry :=
  [⟨str "pikachu", str "u1"⟩, ⟨str "Pidgey", str "u2"⟩, ⟨str "bulbasaur", str "u3"⟩]

/-! ## The byte-wise order -/

theorem strLess_irrefl (a : GoString) : strLess a a = false := by
  induction a with
  | nil => rfl
  | cons x xs ih => simp [strLess, ih]

theorem strLess_asymm : ∀ (a b : GoString), strLess a b = true → strLess b a = false
  | [], [], h => by simp [strLess] at h
  | [], _ :: _, _ => by simp [strLess]
  | _ :: _, [], h => by simp [strLess] at h
  | x :: xs, y :: ys, h => by
    rcases lt_trichotomy x y with hxy | hxy | hxy
    · simp [strLess, hxy, lt_asymm hxy]
    · subst hxy
      simp only [strLess, lt_irrefl, if_false] at h ⊢
      exact strLess_asymm xs ys h
    · simp [strLess, hxy, lt_asymm hxy] at h

theorem strLess_trichotomy : ∀ (a b : GoString), strLess a b = true ∨ a = b ∨ strLess b a = true
  | [], [] => by simp
  | [], _ :: _ => by simp [strLess]
  | _ :: _, [] => by simp [strLess]
  | x :: xs, y :: ys => by
    rcases lt_trichotomy x y with hxy | hxy | hxy
    · simp [strLess, hxy]
    · subst hxy
      simp only [strLess, lt_irrefl, if_false]
      rcases strLess_trichotomy xs ys with h | h | h
      · exact Or.inl h
      · exact Or.inr (Or.inl (by rw [h]))
      · exact Or.inr (Or.inr h)
    · simp [strLess, hxy]

theorem strLess_trans : ∀ (a b c : GoString), strLess a b = true → strLess b c = true →
    strLess a c = true
  | [], [], _, h, _ => by simp [strLess] at h
  | [], _ :: _, [], _, h => by simp [strLess] at h
  | [], _ :: _, _ :: _, _, _ => by simp [strLess]
  | _ :: _, [], _, h, _ => by simp [strLess] at h
  | _ :: _, _ :: _, [], _, h => by simp [strLess] at h
  | x :: xs, y :: ys, z :: zs, h1, h2 => by
    rcases lt_trichotomy x y with hxy | hxy | hxy
    · rcases lt_trichotomy y z with hyz | hyz | hyz
      · simp [strLess, lt_trans hxy hyz]
      · subst hyz; simp [strLess, hxy]
      · simp [strLess, hyz, lt_asymm hyz] at h2
    · subst hxy
      rcases lt_trichotomy x z with hxz | hxz | hxz
      · simp [strLess, hxz]
      · subst hxz
        simp only [strLess, lt_irrefl, if_false] at h1 h2 ⊢
        exact strLess_trans xs ys zs h1 h2
      · simp [strLess, hxz, lt_asymm hxz] at h2
    · simp [strLess, hxy, lt_asymm hxy] at h1

theorem strLe_total (a b : GoString) : strLe a b ∨ strLe b a := by
  unfold strLe
  cases h : strLess b a with
  | false => exact Or.inl rfl
  | true => exact Or.inr (strLess_asymm b a h)

theorem strLe_trans (a b c : GoString) (h1 : strLe a b) (h2 : strLe b c) : strLe a c := by
  unfold strLe at *
  cases h : strLess c a with
  | false => rfl
  | true =>
    rcases strLess_trichotomy a b with hab | hab | hab
    · rw [strLess_trans c a b h hab] at h2; exact h2
    · subst hab; rw [h] at h2; exact h2
    · rw [hab] at h1; exact h1

theorem strLe_antisymm (a b : GoString) (h1 : strLe a b) (h2 : strLe b a) : a = b := by
  unfold strLe at *
  rcases strLess_trichotomy a b with hab | hab | hab
  · rw [hab] at h2; cases h2
  · exact hab
  · rw [hab] at h1; cases h1

/-! ## Sorting -/

theorem sortStrings_perm (l : List GoString) : (sortStrings l).Perm l :=
  List.perm_insertionSort strLe l

theorem sortStrings_sorted (l : List GoString) : (sortStrings l).Pairwise strLe :=
  @List.sorted_insertionSort _ strLe _ ⟨strLe_total⟩ ⟨strLe_trans⟩ l

theorem sortStrings_eq_of_perm {l₁ l₂ : List GoString} (h : l₁.Perm l₂) :
    sortStrings l₁ = sortStrings l₂ :=
  @List.eq_of_perm_of_sorted _ strLe ⟨strLe_antisymm⟩ _ _
    (((sortStrings_perm l₁).trans h).trans (sortStrings_perm l₂).symm)
    (sortStrings_sorted l₁) (sortStrings_sorted l₂)

theorem sortStrings_strict (l : List GoString) (hnd : l.Nodup) :
    (sortStrings l).Pairwise (fun a b => strLess a b = true) := by
  have hnd' : (sortStrings l).Nodup := (sortStrings_perm l).nodup_iff.mpr hnd
  have h := (sortStrings_sorted l).and hnd'
  refine h.imp ?_
  intro a b hab
  rcases strLess_trichotomy a b with h1 | h1 | h1
  · exact h1
  · exact absurd h1 hab.2
  · have := hab.1; unfold strLe at this; rw [h1] at this; cases this

theorem insertionSortByName_sorts : SortsByName insertionSortByName := fun l =>
  ⟨List.perm_insertionSort nameLe l,
    @List.sorted_insertionSort _ nameLe _ ⟨fun a b => strLe_total a.Name b.Name⟩
      ⟨fun a b c => strLe_trans a.Name b.Name c.Name⟩ l⟩

theorem names_of_sorted (sortSlice : List PokemonListEntry → List PokemonListEntry)
    (hsort : SortsByName sortSlice) (l : List PokemonListEntry) :
    (sortSlice l).map PokemonListEntry.Name = sortStrings (l.map PokemonListEntry.Name) := by
  refine @List.eq_of_perm_of_sorted _ strLe ⟨strLe_antisymm⟩ _ _ ?_ ?_ (sortStrings_sorted _)
  · exact ((hsort l).1.map _).trans (sortStrings_perm _).symm
  · exact List.pairwise_map.mpr (hsort l).2

/-! ## The map -/

theorem GoMap.get_set (g : GoMap) (k k' : GoString) (v : List PokemonListEntry) :
    (g.set k v).get k' = if k = k' then v else g.get k' := by
  induction g with
  | nil => simp [GoMap.set, GoMap.get]
  | cons p g ih =>
    obtain ⟨k0, v0⟩ := p
    by_cases h0 : k0 = k
    · subst h0
      by_cases h1 : k0 = k' <;> simp [GoMap.set, GoMap.get, h1]
    · by_cases h1 : k0 = k'
      · subst h1
        simp [GoMap.set, GoMap.get, h0, Ne.symm h0]
      · simp [GoMap.set, GoMap.get, h0, h1, ih]

theorem GoMap.mem_keys_set (g : GoMap) (k k' : GoString) (v : List PokemonListEntry) :
    k' ∈ (g.set k v).keys ↔ k' = k ∨ k' ∈ g.keys := by
  induction g with
  | nil => simp [GoMap.set, GoMap.keys]
  | cons p g ih =>
    obtain ⟨k0, v0⟩ := p
    by_cases h0 : k0 = k
    · subst h0
      simp [GoMap.set, GoMap.keys]
    · simp only [GoMap.keys] at ih
      simp [GoMap.set, GoMap.keys, h0, ih]
      tauto

theorem GoMap.nodup_keys_set (g : GoMap) (k : GoString) (v : List PokemonListEntry)
    (h : g.keys.Nodup) : (g.set k v).keys.Nodup := by
  induction g with
  | nil => simp [GoMap.set, GoMap.keys]
  | cons p g ih =>
    obtain ⟨k0, v0⟩ := p
    by_cases h0 : k0 = k
    · subst h0
      simpa [GoMap.set, GoMap.keys] using h
    · have hm := GoMap.mem_keys_set g k k0 v
      simp only [GoMap.keys, List.map_cons, List.nodup_cons] at h ih hm ⊢
      simp only [GoMap.set, h0, if_false, List.map_cons, List.nodup_cons]
      refine ⟨?_, ih h.2⟩
      rw [hm]
      rintro (h1 | h1)
      · exact h0 h1
      · exact h.1 h1

/-! ## The grouping loop -/

theorem letterOf_cons (b : Byte) (bs url : GoString) :
    letterOf ⟨b :: bs, url⟩ = upperOfByte b := rfl

theorem groupLoop_spec : ∀ (es : List PokemonListEntry) (g : GoMap),
    (∀ e ∈ es, e.Name ≠ []) →
    ∃ g', groupLoop es g = .ok g' ∧
      (∀ k, g'.get k = g.get k ++ es.filter (fun e => letterOf e = k)) ∧
      (g.keys.Nodup → g'.keys.Nodup) ∧
      (∀ k, k ∈ g'.keys ↔ k ∈ g.keys ∨ ∃ e ∈ es, letterOf e = k)
  | [], g, _ => ⟨g, rfl, by simp, id, by simp⟩
  | p :: rest, g, hne => by
    obtain ⟨name, url⟩ := p
    cases name with
    | nil => exact absurd rfl (hne _ (List.mem_cons_self _ _))
    | cons b bs =>
      obtain ⟨g', hrun, hget, hnd, hkeys⟩ :=
        groupLoop_spec rest (g.set (upperOfByte b) (g.get (upperOfByte b) ++ [⟨b :: bs, url⟩]))
          (fun e he => hne e (List.mem_cons_of_mem _ he))
      refine ⟨g', ?_, ?_, ?_, ?_⟩
      · simpa [groupLoop] using hrun
      · intro k
        rw [hget k, GoMap.get_set]
        by_cases hk : upperOfByte b = k
        · simp [hk, List.filter_cons, letterOf_cons]
        · simp [hk, List.filter_cons, letterOf_cons]
      · intro h
        exact hnd (GoMap.nodup_keys_set _ _ _ h)
      · intro k
        rw [hkeys k, GoMap.mem_keys_set]
        simp only [List.mem_cons, exists_eq_or_imp, letterOf_cons]
        constructor
        · rintro ((h | h) | h)
          · exact Or.inr (Or.inl h.symm)
          · exact Or.inl h
          · exact Or.inr (Or.inr h)
        · rintro (h | h | h)
          · exact Or.inl (Or.inr h)
          · exact Or.inl (Or.inl h.symm)
          · exact Or.inr h

theorem groupEntries_spec (es : List PokemonListEntry) (hne : ∀ e ∈ es, e.Name ≠ []) :
    ∃ g, groupEntries es = .ok g ∧
      (∀ k, g.get k = es.filter (fun e => letterOf e = k)) ∧
      g.keys.Nodup ∧
      (∀ k, k ∈ g.keys ↔ ∃ e ∈ es, letterOf e = k) := by
  obtain ⟨g, hrun, hget, hnd, hkeys⟩ := groupLoop_spec es [] hne
  refine ⟨g, hrun, ?_, hnd (by simp [GoMap.keys]), ?_⟩
  · intro k; simpa [GoMap.get] using hget k
  · intro k; simpa [GoMap.keys] using hkeys k

theorem bind_filter_perm : ∀ (ks : List GoString), ks.Nodup →
    ∀ (es : List PokemonListEntry), (∀ e ∈ es, letterOf e ∈ ks) →
    ((ks.map (fun k => es.filter (fun e => letterOf e = k))).flatten).Perm es
  | [], _, es, h => by
    cases es with
    | nil => simp
    | cons e es => exact absurd (h e (List.mem_cons_self _ _)) (List.not_mem_nil _)
  | k :: ks, hnd, es, h => by
    rw [List.nodup_cons] at hnd
    have hrest : ∀ e ∈ es.filter (fun e => ¬ letterOf e = k), letterOf e ∈ ks := by
      intro e he
      rw [List.mem_filter] at he
      have := h e he.1
      rw [List.mem_cons] at this
      rcases this with h1 | h1
      · simp [h1] at he
      · exact h1
    have ih := bind_filter_perm ks hnd.2 _ hrest
    have heq : ks.map (fun k' => (es.filter (fun e => ¬ letterOf e = k)).filter
        (fun e => letterOf e = k')) = ks.map (fun k' => es.filter (fun e => letterOf e = k')) := by
      apply List.map_congr_left
      intro k' hk'
      rw [List.filter_filter]
      apply List.filter_congr
      intro e _
      by_cases h1 : letterOf e = k'
      · have : letterOf e ≠ k := by
          rintro h2; rw [h1] at h2; subst h2; exact hnd.1 hk'
        rw [h1] at this
        simp [h1, this]
      · simp [h1]
    rw [heq] at ih
    simp only [List.map_cons, List.flatten_cons]
    refine (List.Perm.append_left _ ih).trans ?_
    have := List.filter_append_perm (fun e => decide (letterOf e = k)) es
    simpa using this

/-! ## The nodes built from the groups -/

theorem groupNode_text (sortSlice : List PokemonListEntry → List PokemonListEntry) (g : GoMap)
    (l : GoString) : (groupNode sortSlice g l).text = l := rfl

theorem groupNode_members (sortSlice : List PokemonListEntry → List PokemonListEntry)
    (g : GoMap) (l : GoString) : (groupNode sortSlice g l).members = sortSlice (g.get l) := by
  simp only [groupNode, TreeNode.members, TreeNode.children, List.filterMap_map]
  have h : (TreeNode.reference ∘ leafNode) = (some : PokemonListEntry → _) := by
    funext e; rfl
  rw [h, List.filterMap_some]

theorem groupNode_childTexts (sortSlice : List PokemonListEntry → List PokemonListEntry)
    (g : GoMap) (l : GoString) :
    (groupNode sortSlice g l).childTexts = (sortSlice (g.get l)).map PokemonListEntry.Name := by
  simp only [groupNode, TreeNode.childTexts, TreeNode.children, List.map_map]
  rfl

theorem mem_sortStrings (l : List GoString) (k : GoString) : k ∈ sortStrings l ↔ k ∈ l :=
  (sortStrings_perm l).mem_iff

theorem countP_eq_one_of_nodup : ∀ (l : List GoString) (a : GoString), l.Nodup → a ∈ l →
    l.countP (fun k => decide (k = a)) = 1
  | [], _, _, h => absurd h (List.not_mem_nil _)
  | x :: xs, a, hnd, h => by
    rw [List.nodup_cons] at hnd
    rw [List.countP_cons]
    by_cases hx : x = a
    · subst hx
      have h0 : xs.countP (fun k => decide (k = x)) = 0 := by
        rw [List.countP_eq_zero]
        intro k hk hkx
        simp only [decide_eq_true_eq] at hkx
        subst hkx
        exact hnd.1 hk
      simp [h0]
    · have hmem : a ∈ xs := by
        rcases List.mem_cons.mp h with h1 | h1
        · exact absurd h1.symm hx
        · exact h1
      simp [hx, countP_eq_one_of_nodup xs a hnd.2 hmem]

theorem groupingStep_of_groups (results : List PokemonListEntry)
    (sortSlice : List PokemonListEntry → List PokemonListEntry)
    (rangeKeys : GoMap → List GoString) (g : GoMap) (hg : groupEntries results = .ok g)
    (hrange : ∀ m, (rangeKeys m).Perm (GoMap.keys m)) :
    groupingStep results sortSlice rangeKeys
      = .ok ((sortStrings (GoMap.keys g)).map (groupNode sortSlice g)) := by
  simp only [groupingStep, hg, buildNodes]
  rw [sortStrings_eq_of_perm (hrange g)]

theorem fetch_of_grouping (httpGet : GoString → Except GoError Response)
    (unmarshal : GoString → Except GoError PokemonListResponse)
    (sortSlice : List PokemonListEntry → List PokemonListEntry)
    (rangeKeys : GoMap → List GoString) (body : GoString) (results : List PokemonListEntry)
    (hget : httpGet (apiURL ++ str "/pokemon?limit=10000") = .ok ⟨200, .ok body⟩)
    (hdec : unmarshal body = .ok ⟨results⟩) :
    fetchPokemonList httpGet unmarshal sortSlice rangeKeys =
      (match groupingStep results sortSlice rangeKeys with
        | .error p => .panicked p
        | .ok nodes => .returned nodes) := by
  simp [fetchPokemonList, hget, hdec]

theorem fetch_returns (httpGet : GoString → Except GoError Response)
    (unmarshal : GoString → Except GoError PokemonListResponse)
    (sortSlice : List PokemonListEntry → List PokemonListEntry)
    (rangeKeys : GoMap → List GoString) (body : GoString) (results : List PokemonListEntry)
    (g : GoMap)
    (hget : httpGet (apiURL ++ str "/pokemon?limit=10000") = .ok ⟨200, .ok body⟩)
    (hdec : unmarshal body = .ok ⟨results⟩) (hg : groupEntries results = .ok g)
    (hrange : ∀ m, (rangeKeys m).Perm (GoMap.keys m)) :
    fetchPokemonList httpGet unmarshal sortSlice rangeKeys
      = .returned ((sortStrings (GoMap.keys g)).map (groupNode sortSlice g)) := by
  rw [fetch_of_grouping httpGet unmarshal sortSlice rangeKeys body results hget hdec,
    groupingStep_of_groups results sortSlice rangeKeys g hg hrange]

theorem groupView_nodes (sortSlice : List PokemonListEntry → List PokemonListEntry)
    (hsort : SortsByName sortSlice) (g : GoMap) (ks : List GoString) :
    groupView (ks.map (groupNode sortSlice g))
      = ks.map (fun l => (l, sortStrings ((g.get l).map PokemonListEntry.Name))) := by
  simp only [groupView, List.map_map]
  apply List.map_congr_left
  intro l _
  simp only [Function.comp, groupNode_text, groupNode_childTexts, names_of_sorted _ hsort]

/-! ## The claims on grouping -/

/-- The sample entries have non-empty names. -/
theorem sample_names_nonempty : ∀ e ∈ sampleEntries, e.Name ≠ [] := by
  decide

/-- C1: an entry with an empty name makes the grouping step panic with an index out of
range: it is neither skipped nor turned into a returned error, and `fetchPokemonList`
called on a 200 response decoding to such a list panics as well. -/
theorem empty_name_panics (results : List PokemonListEntry)
    (sortSlice : List PokemonListEntry → List PokemonListEntry)
    (rangeKeys : GoMap → List GoString) (h : ∃ e ∈ results, e.Name = []) :
    groupingStep results sortSlice rangeKeys = .error indexOutOfRange ∧
    ∀ (httpGet : GoString → Except GoError Response)
      (unmarshal : GoString → Except GoError PokemonListResponse) (body : GoString),
      httpGet (apiURL ++ str "/pokemon?limit=10000") = .ok ⟨200, .ok body⟩ →
      unmarshal body = .ok ⟨results⟩ →
      fetchPokemonList httpGet unmarshal sortSlice rangeKeys = .panicked indexOutOfRange := by
  have hloop : ∀ (es : List PokemonListEntry) (g : GoMap), (∃ e ∈ es, e.Name = []) →
      groupLoop es g = .error indexOutOfRange := by
    intro es
    induction es with
    | nil => intro g h; simp at h
    | cons p rest ih =>
      intro g h
      obtain ⟨name, url⟩ := p
      cases name with
      | nil => rfl
      | cons b bs =>
        have h' : ∃ e ∈ rest, e.Name = [] := by
          obtain ⟨e, he, hname⟩ := h
          rcases List.mem_cons.mp he with h1 | h1
          · subst h1; simp at hname
          · exact ⟨e, h1, hname⟩
        simpa [groupLoop] using ih _ h'
  have hg : groupEntries results = .error indexOutOfRange := hloop results [] h
  have hstep : groupingStep results sortSlice rangeKeys = .error indexOutOfRange := by
    simp [groupingStep, hg]
  refine ⟨hstep, ?_⟩
  intro httpGet unmarshal body hget hdec
  rw [fetch_of_grouping httpGet unmarshal sortSlice rangeKeys body results hget hdec, hstep]

/-- Witness of C1: the catalog with the single entry of empty name. -/
theorem empty_name_panics_witness :
    (∃ e ∈ [(⟨[], str "u"⟩ : PokemonListEntry)], e.Name = []) ∧
    groupingStep [⟨[], str "u"⟩] insertionSortByName GoMap.keys = .error indexOutOfRange :=
  ⟨⟨_, List.mem_cons_self _ _, rfl⟩,
    (empty_name_panics [⟨[], str "u"⟩] insertionSortByName GoMap.keys
      ⟨_, List.mem_cons_self _ _, rfl⟩).1⟩

/-- C2: the entry named "étoile" is filed under the key "Ã", the upper case of the code
point numbered like the first byte of the name (0xC3), while the upper case of its first
character is "É". -/
theorem non_ascii_name_key :
    (groupingStep [⟨str "étoile", str "u"⟩] insertionSortByName GoMap.keys).toOption.map
        groupView
      = some [(str "Ã", [str "étoile"])] ∧
    upperFirstChar (str "étoile") = some (str "É") ∧
    str "Ã" ≠ str "É" := by
  decide

/-- C3: when the listing request yields a 200 response decoding to entries of non-empty
names, `fetchPokemonList` returns nodes (those of its grouping step) whose group members
concatenated are a permutation of the entries; no group is empty, and every entry is a
member of exactly one group. This holds whatever `sort.Slice` does with equal names and
whatever the order of the map's keys. -/
theorem grouping_partition (httpGet : GoString → Except GoError Response)
    (unmarshal : GoString → Except GoError PokemonListResponse)
    (sortSlice : List PokemonListEntry → List PokemonListEntry)
    (rangeKeys : GoMap → List GoString) (body : GoString) (results : List PokemonListEntry)
    (hget : httpGet (apiURL ++ str "/pokemon?limit=10000") = .ok ⟨200, .ok body⟩)
    (hdec : unmarshal body = .ok ⟨results⟩)
    (hsort : SortsByName sortSlice)
    (hne : ∀ e ∈ results, e.Name ≠ []) (hrange : ∀ m, (rangeKeys m).Perm (GoMap.keys m)) :
    ∃ nodes, fetchPokemonList httpGet unmarshal sortSlice rangeKeys = .returned nodes ∧
      groupingStep results sortSlice rangeKeys = .ok nodes ∧
      ((nodes.map TreeNode.members).flatten).Perm results ∧
      (∀ n ∈ nodes, n.children ≠ [] ∧ n.members ≠ []) ∧
      (∀ e ∈ results, nodes.countP (fun n => decide (e ∈ n.members)) = 1) := by
  obtain ⟨g, hg, hget', hnd, hkeys⟩ := groupEntries_spec results hne
  have hmemsort : ∀ (l : List PokemonListEntry) (e : PokemonListEntry),
      e ∈ sortSlice l ↔ e ∈ l := fun l e => (hsort l).1.mem_iff
  refine ⟨_, fetch_returns httpGet unmarshal sortSlice rangeKeys body results g hget hdec hg
    hrange, groupingStep_of_groups results sortSlice rangeKeys g hg hrange, ?_, ?_, ?_⟩
  · rw [List.map_map]
    have hcover : ∀ e ∈ results, letterOf e ∈ sortStrings (GoMap.keys g) := by
      intro e he
      rw [mem_sortStrings, hkeys]
      exact ⟨e, he, rfl⟩
    have hnd' : (sortStrings (GoMap.keys g)).Nodup := (sortStrings_perm _).nodup_iff.mpr hnd
    refine List.Perm.trans ?_ (bind_filter_perm _ hnd' results hcover)
    apply List.Perm.flatten_congr
    rw [List.forall₂_map_left_iff, List.forall₂_map_right_iff, List.forall₂_same]
    intro k _
    simp only [Function.comp, groupNode_members, hget']
    exact (hsort _).1
  · intro n hn
    rw [List.mem_map] at hn
    obtain ⟨k, hk, rfl⟩ := hn
    rw [mem_sortStrings, hkeys] at hk
    obtain ⟨e, he, hek⟩ := hk
    have hmem : e ∈ (groupNode sortSlice g k).members := by
      rw [groupNode_members, hmemsort, hget', List.mem_filter]
      exact ⟨he, by simpa using hek⟩
    refine ⟨?_, List.ne_nil_of_mem hmem⟩
    intro hc
    simp [TreeNode.members, hc] at hmem
  · intro e he
    rw [List.countP_map]
    have hfun : ((fun n => decide (e ∈ n.members)) ∘ groupNode sortSlice g)
        = (fun k => decide (k = letterOf e)) := by
      funext k
      simp only [Function.comp, groupNode_members, hmemsort, hget', List.mem_filter, he,
        true_and, decide_eq_true_eq]
      by_cases h1 : letterOf e = k
      · simp [h1]
      · have h2 : ¬ k = letterOf e := fun h => h1 h.symm
        simp [h1, h2]
    rw [hfun]
    have hmem : letterOf e ∈ sortStrings (GoMap.keys g) := by
      rw [mem_sortStrings, hkeys]; exact ⟨e, he, rfl⟩
    have hnd' : (sortStrings (GoMap.keys g)).Nodup := (sortStrings_perm _).nodup_iff.mpr hnd
    exact countP_eq_one_of_nodup _ _ hnd' hmem

/-- Witness of C3: a 200 response decoding to the three sample entries, sorting by
insertion, the keys ranged over in map order. -/
theorem grouping_partition_witness :
    ∃ nodes, fetchPokemonList (fun _ => .ok ⟨200, .ok (str "ok")⟩)
        (fun _ => .ok ⟨sampleEntries⟩) insertionSortByName GoMap.keys = .returned nodes ∧
      groupingStep sampleEntries insertionSortByName GoMap.keys = .ok nodes ∧
      ((nodes.map TreeNode.members).flatten).Perm sampleEntries ∧
      (∀ n ∈ nodes, n.children ≠ [] ∧ n.members ≠ []) ∧
      (∀ e ∈ sampleEntries, nodes.countP (fun n => decide (e ∈ n.members)) = 1) :=
  grouping_partition (fun _ => .ok ⟨200, .ok (str "ok")⟩) (fun _ => .ok ⟨sampleEntries⟩)
    insertionSortByName GoMap.keys (str "ok") sampleEntries rfl rfl insertionSortByName_sorts
    sample_names_nonempty (fun _ => List.Perm.refl _)

/-- C4: when the listing request yields a 200 response decoding to entries of non-empty
names, the header nodes `fetchPokemonList` returns carry no reference, their texts are
exactly the keys the entries are filed under, strictly ascending in the byte-wise order
and hence pairwise distinct, and the returned nodes are the same for every order in which
the keys of the map are ranged over. -/
theorem group_headers_ascending (httpGet : GoString → Except GoError Response)
    (unmarshal : GoString → Except GoError PokemonListResponse)
    (sortSlice : List PokemonListEntry → List PokemonListEntry)
    (rangeKeys : GoMap → List GoString) (body : GoString) (results : List PokemonListEntry)
    (hget : httpGet (apiURL ++ str "/pokemon?limit=10000") = .ok ⟨200, .ok body⟩)
    (hdec : unmarshal body = .ok ⟨results⟩)
    (hne : ∀ e ∈ results, e.Name ≠ []) (hrange : ∀ m, (rangeKeys m).Perm (GoMap.keys m)) :
    ∃ nodes, fetchPokemonList httpGet unmarshal sortSlice rangeKeys = .returned nodes ∧
      groupingStep results sortSlice rangeKeys = .ok nodes ∧
      (nodes.map TreeNode.text).Pairwise (fun a b => strLess a b = true) ∧
      (nodes.map TreeNode.text).Nodup ∧
      (∀ k, k ∈ nodes.map TreeNode.text ↔ ∃ e ∈ results, letterOf e = k) ∧
      (∀ n ∈ nodes, n.reference = none) ∧
      ∀ rangeKeys' : GoMap → List GoString, (∀ m, (rangeKeys' m).Perm (GoMap.keys m)) →
        fetchPokemonList httpGet unmarshal sortSlice rangeKeys' = .returned nodes := by
  obtain ⟨g, hg, _, hnd, hkeys⟩ := groupEntries_spec results hne
  have htexts : ((sortStrings (GoMap.keys g)).map (groupNode sortSlice g)).map TreeNode.text
      = sortStrings (GoMap.keys g) := by
    rw [List.map_map]
    have : (TreeNode.text ∘ groupNode sortSlice g) = id := by funext l; rfl
    rw [this, List.map_id]
  refine ⟨_, fetch_returns httpGet unmarshal sortSlice rangeKeys body results g hget hdec hg
    hrange, groupingStep_of_groups results sortSlice rangeKeys g hg hrange, ?_, ?_, ?_, ?_, ?_⟩
  · rw [htexts]; exact sortStrings_strict _ hnd
  · rw [htexts]; exact (sortStrings_perm _).nodup_iff.mpr hnd
  · intro k
    rw [htexts, mem_sortStrings, hkeys]
  · intro n hn
    obtain ⟨k, _, rfl⟩ := List.mem_map.mp hn
    rfl
  · intro rangeKeys' hrange'
    exact fetch_returns httpGet unmarshal sortSlice rangeKeys' body results g hget hdec hg
      hrange'

/-- Witness of C4: a 200 response decoding to the three sample entries, the keys ranged
over in reverse map order. -/
theorem group_headers_ascending_witness :
    ∃ nodes, fetchPokemonList (fun _ => .ok ⟨200, .ok (str "ok")⟩)
        (fun _ => .ok ⟨sampleEntries⟩) insertionSortByName
        (fun m => (GoMap.keys m).reverse) = .returned nodes ∧
      groupingStep sampleEntries insertionSortByName (fun m => (GoMap.keys m).reverse)
        = .ok nodes ∧
      (nodes.map TreeNode.text).Pairwise (fun a b => strLess a b = true) ∧
      (nodes.map TreeNode.text).Nodup ∧
      (∀ k, k ∈ nodes.map TreeNode.text ↔ ∃ e ∈ sampleEntries, letterOf e = k) ∧
      (∀ n ∈ nodes, n.reference = none) ∧
      ∀ rangeKeys' : GoMap → List GoString, (∀ m, (rangeKeys' m).Perm (GoMap.keys m)) →
        fetchPokemonList (fun _ => .ok ⟨200, .ok (str "ok")⟩)
          (fun _ => .ok ⟨sampleEntries⟩) insertionSortByName rangeKeys' = .returned nodes :=
  group_headers_ascending (fun _ => .ok ⟨200, .ok (str "ok")⟩) (fun _ => .ok ⟨sampleEntries⟩)
    insertionSortByName (fun m => (GoMap.keys m).reverse) (str "ok") sampleEntries rfl rfl
    sample_names_nonempty (fun m => List.reverse_perm (GoMap.keys m))

/-- C5: when the listing request yields a 200 response decoding to entries of non-empty
names, the children of every group node `fetchPokemonList` returns are in ascending
byte-wise order of name (no child is followed by one with a smaller name) and their texts
are the sorted names of the group's entries; for a response decoding to the names
pikachu, Pidgey, bulbasaur the returned groups are exactly B:[bulbasaur] and
P:[Pidgey, pikachu], in that order. -/
theorem group_children_sorted (httpGet : GoString → Except GoError Response)
    (unmarshal : GoString → Except GoError PokemonListResponse)
    (sortSlice : List PokemonListEntry → List PokemonListEntry)
    (rangeKeys : GoMap → List GoString) (body : GoString) (results : List PokemonListEntry)
    (hget : httpGet (apiURL ++ str "/pokemon?limit=10000") = .ok ⟨200, .ok body⟩)
    (hdec : unmarshal body = .ok ⟨results⟩)
    (hsort : SortsByName sortSlice)
    (hne : ∀ e ∈ results, e.Name ≠ []) (hrange : ∀ m, (rangeKeys m).Perm (GoMap.keys m)) :
    (∃ nodes, fetchPokemonList httpGet unmarshal sortSlice rangeKeys = .returned nodes ∧
      groupingStep results sortSlice rangeKeys = .ok nodes ∧
      (∀ n ∈ nodes, n.childTexts.Pairwise (fun a b => strLess b a = false)) ∧
      (∀ n ∈ nodes, n.childTexts = sortStrings
        ((results.filter (fun e => letterOf e = n.text)).map PokemonListEntry.Name))) ∧
    (∀ (unmarshal' : GoString → Except GoError PokemonListResponse),
      unmarshal' body = .ok ⟨sampleEntries⟩ →
      ∃ nodes, fetchPokemonList httpGet unmarshal' sortSlice rangeKeys = .returned nodes ∧
        groupView nodes
          = [(str "B", [str "bulbasaur"]), (str "P", [str "Pidgey", str "pikachu"])]) := by
  constructor
  · obtain ⟨g, hg, hget', _, _⟩ := groupEntries_spec results hne
    refine ⟨_, fetch_returns httpGet unmarshal sortSlice rangeKeys body results g hget hdec hg
      hrange, groupingStep_of_groups results sortSlice rangeKeys g hg hrange, ?_, ?_⟩
    · intro n hn
      rw [List.mem_map] at hn
      obtain ⟨k, _, rfl⟩ := hn
      rw [groupNode_childTexts, List.pairwise_map]
      exact (hsort _).2
    · intro n hn
      rw [List.mem_map] at hn
      obtain ⟨k, _, rfl⟩ := hn
      rw [groupNode_childTexts, names_of_sorted _ hsort, groupNode_text, hget']
  · intro unmarshal' hdec'
    have hg : groupEntries sampleEntries = .ok
        [(str "P", [⟨str "pikachu", str "u1"⟩, ⟨str "Pidgey", str "u2"⟩]),
          (str "B", [⟨str "bulbasaur", str "u3"⟩])] := by rfl
    refine ⟨_, fetch_returns httpGet unmarshal' sortSlice rangeKeys body sampleEntries _ hget
      hdec' hg hrange, ?_⟩
    rw [groupView_nodes _ hsort]
    decide

/-- Witness of C5: a 200 response decoding to the sample entries and a fourth one, the
keys ranged over in reverse map order. -/
theorem group_children_sorted_witness :
    ∃ nodes, fetchPokemonList (fun _ => .ok ⟨200, .ok (str "ok")⟩)
        (fun _ => .ok ⟨sampleEntries ++ [⟨str "pichu", str "u4"⟩]⟩) insertionSortByName
        (fun m => (GoMap.keys m).reverse) = .returned nodes ∧
      groupingStep (sampleEntries ++ [⟨str "pichu", str "u4"⟩]) insertionSortByName
        (fun m => (GoMap.keys m).reverse) = .ok nodes ∧
      (∀ n ∈ nodes, n.childTexts.Pairwise (fun a b => strLess b a = false)) ∧
      (∀ n ∈ nodes, n.childTexts = sortStrings
        (((sampleEntries ++ [(⟨str "pichu", str "u4"⟩ : PokemonListEntry)]).filter
          (fun e => letterOf e = n.text)).map PokemonListEntry.Name)) :=
  (group_children_sorted (fun _ => .ok ⟨200, .ok (str "ok")⟩)
    (fun _ => .ok ⟨sampleEntries ++ [⟨str "pichu", str "u4"⟩]⟩) insertionSortByName
    (fun m => (GoMap.keys m).reverse) (str "ok") (sampleEntries ++ [⟨str "pichu", str "u4"⟩])
    rfl rfl insertionSortByName_sorts (by decide)
    (fun m => List.reverse_perm (GoMap.keys m))).1

/-! ## The claims on the fetch functions -/

/-- C6 as stated fails: on a response with status 201 (a success code) and a well-formed
body both fetch functions return the error "status code 201". -/
theorem created_status_is_rejected :
    ((200 : Int) ≤ 201 ∧ (201 : Int) ≤ 299) ∧
    fetchPokemonDetails (fun _ => .ok ⟨201, .ok (str "ok")⟩) (fun _ => .ok PokemonDetails.zero)
      (str "https://pokeapi.co/api/v2/pokemon/1/") = .error ⟨str "status code 201"⟩ ∧
    fetchPokemonList (fun _ => .ok ⟨201, .ok (str "ok")⟩) (fun _ => .ok ⟨[]⟩)
      insertionSortByName GoMap.keys = .failed ⟨str "status code 201"⟩ := by
  have h : statusError 201 = ⟨str "status code 201"⟩ := by decide
  refine ⟨by decide, ?_, ?_⟩
  · rw [← h]; rfl
  · rw [← h]; rfl

/-- C6, amended: when the request yields a response whose body reads and decodes, each
fetch function returns an error exactly when the status code differs from 200, that error
is "status code " followed by the code in decimal, and `fetchPokemonDetails` returns the
decoded record when the code is 200. -/
theorem fetch_fails_iff_not_200 (httpGet : GoString → Except GoError Response)
    (unmarshalList : GoString → Except GoError PokemonListResponse)
    (unmarshalDetails : GoString → Except GoError PokemonDetails)
    (sortSlice : List PokemonListEntry → List PokemonListEntry)
    (rangeKeys : GoMap → List GoString) (url : GoString)
    (respL resp : Response) (bodyL body : GoString) (listResp : PokemonListResponse)
    (d : PokemonDetails)
    (hgetL : httpGet (apiURL ++ str "/pokemon?limit=10000") = .ok respL)
    (hbodyL : respL.Body = .ok bodyL) (hdecL : unmarshalList bodyL = .ok listResp)
    (hget : httpGet url = .ok resp) (hbody : resp.Body = .ok body)
    (hdec : unmarshalDetails body = .ok d) :
    ((∃ e, fetchPokemonList httpGet unmarshalList sortSlice rangeKeys = .failed e)
        ↔ respL.StatusCode ≠ 200) ∧
    (respL.StatusCode ≠ 200 →
      fetchPokemonList httpGet unmarshalList sortSlice rangeKeys
        = .failed (statusError respL.StatusCode)) ∧
    ((∃ e, fetchPokemonDetails httpGet unmarshalDetails url = .error e)
        ↔ resp.StatusCode ≠ 200) ∧
    (resp.StatusCode ≠ 200 →
      fetchPokemonDetails httpGet unmarshalDetails url = .error (statusError resp.StatusCode)) ∧
    (resp.StatusCode = 200 → fetchPokemonDetails httpGet unmarshalDetails url = .ok d) ∧
    (∀ code : Int, (statusError code).msg = str "status code " ++ str (toString code)) := by
  refine ⟨?_, ?_, ?_, ?_, ?_, fun _ => rfl⟩
  · by_cases hs : respL.StatusCode = 200
    · simp only [fetchPokemonList, hgetL, hs, hbodyL, hdecL, ne_eq, not_true_eq_false,
        if_false, iff_false, not_exists]
      intro e
      cases groupingStep listResp.Results sortSlice rangeKeys <;> simp
    · simp [fetchPokemonList, hgetL, hs]
  · intro hs
    simp [fetchPokemonList, hgetL, hs]
  · by_cases hs : resp.StatusCode = 200
    · simp [fetchPokemonDetails, hget, hs, hbody, hdec]
    · simp [fetchPokemonDetails, hget, hs]
  · intro hs
    simp [fetchPokemonDetails, hget, hs]
  · intro hs
    simp [fetchPokemonDetails, hget, hs, hbody, hdec]

/-- Witness of C6, amended: a network that answers every request with status 404. -/
theorem fetch_fails_iff_not_200_witness :
    fetchPokemonDetails (fun _ => .ok ⟨404, .ok []⟩) (fun _ => .ok PokemonDetails.zero) []
      = .error (statusError 404) :=
  (fetch_fails_iff_not_200 (fun _ => .ok ⟨404, .ok []⟩) (fun _ => .ok ⟨[]⟩)
    (fun _ => .ok PokemonDetails.zero) insertionSortByName GoMap.keys [] ⟨404, .ok []⟩
    ⟨404, .ok []⟩ [] [] ⟨[]⟩ PokemonDetails.zero rfl rfl rfl rfl rfl rfl).2.2.2.1 (by decide)

/-! ## The selection handler -/

theorem foldl_writeDetails (ctx : Ctx) : ∀ (stats : List PokemonStat) (a : App),
    stats.foldl (fun acc s => acc.writeDetails ctx (statText s)) a =
      { a with
        details := a.details ++ (stats.map statText).flatten
        trace := a.trace ++ stats.map (fun s => (ctx, PaneOp.write (statText s))) }
  | [], a => by simp
  | s :: stats, a => by
    rw [List.foldl_cons, foldl_writeDetails ctx stats]
    simp [App.writeDetails]

theorem runUpdate_eq (ctx : Ctx) (a : App) (u : Update) :
    runUpdate ctx a u =
      { a with
        details := u.render
        trace := a.trace ++ (ctx, PaneOp.clear) :: u.writes.map (fun w => (ctx, PaneOp.write w)) } := by
  obtain ⟨detail, err⟩ := u
  cases err with
  | some e =>
    simp [runUpdate, Update.render, Update.writes, App.clearDetails, App.writeDetails]
  | none =>
    simp only [runUpdate]
    rw [foldl_writeDetails]
    simp [Update.render, Update.writes, App.clearDetails, App.writeDetails, List.map_map,
      Function.comp]

theorem selected_leaf_eq (ctx : Ctx) (a : App) (node : TreeNode) (E : PokemonListEntry)
    (href : node.reference = some E) :
    (selectedFunc ctx a node).1 =
      { a with
        details := loadingText E
        trace := a.trace ++ [(ctx, PaneOp.clear), (ctx, PaneOp.write (loadingText E))]
        tasks := a.tasks ++ [E]
        current := some E } := by
  simp [selectedFunc, href, App.clearDetails, App.writeDetails]

theorem isolated_run_eq (unmarshal : GoString → Except GoError PokemonDetails) (a : App)
    (node : TreeNode) (E : PokemonListEntry) (httpGet : GoString → Except GoError Response)
    (href : node.reference = some E) (htasks : a.tasks = []) (hupd : a.updates = []) :
    run unmarshal a [.selected node, .fetched 0 httpGet, .drain] =
      { a with
        details := (Update.ofResult (fetchPokemonDetails httpGet unmarshal E.URL)).render
        trace := a.trace ++ [(Ctx.ui, PaneOp.clear), (Ctx.ui, PaneOp.write (loadingText E)),
            (Ctx.ui, PaneOp.clear)] ++
          (Update.ofResult (fetchPokemonDetails httpGet unmarshal E.URL)).writes.map
            (fun w => (Ctx.ui, PaneOp.write w))
        fetches := a.fetches ++ [E.URL]
        lastDrawn := some (Update.ofResult (fetchPokemonDetails httpGet unmarshal E.URL))
        current := some E } := by
  simp only [run, List.foldl_cons, List.foldl_nil, step, Event.ctx]
  rw [selected_leaf_eq _ a node E href]
  simp [htasks, hupd, goroutineBody, runUpdate_eq]

theorem lineBreaks_errorText (err : GoError) : lineBreaks (errorText err) = lineBreaks err.msg := by
  have h : lineBreaks (str "[red]Error:[-] ") = 0 := by decide
  unfold lineBreaks at *
  rw [errorText, List.count_append, h, Nat.zero_add]

/-- C7: a selection of a leaf made while nothing is in flight performs, on the detail
pane and in this order, a clear, the write of "Loading <name>..." with a line break, and
after the fetch has returned and its update is drained a clear followed by the writes of
the result (or of the error); after the selection the pane holds the placeholder, at the
end it holds the render of the result only. -/
theorem isolated_selection_order (unmarshal : GoString → Except GoError PokemonDetails)
    (a : App) (node : TreeNode) (E : PokemonListEntry)
    (httpGet : GoString → Except GoError Response)
    (href : node.reference = some E) (htasks : a.tasks = []) (hupd : a.updates = []) :
    (step unmarshal a (.selected node)).details = str "Loading " ++ E.Name ++ str "...\n" ∧
    (step unmarshal a (.selected node)).trace = a.trace ++
      [(Ctx.ui, PaneOp.clear), (Ctx.ui, PaneOp.write (str "Loading " ++ E.Name ++ str "...\n"))] ∧
    (run unmarshal a [.selected node, .fetched 0 httpGet, .drain]).trace = a.trace ++
      [(Ctx.ui, PaneOp.clear), (Ctx.ui, PaneOp.write (str "Loading " ++ E.Name ++ str "...\n")),
        (Ctx.ui, PaneOp.clear)] ++
      (Update.ofResult (fetchPokemonDetails httpGet unmarshal E.URL)).writes.map
        (fun w => (Ctx.ui, PaneOp.write w)) ∧
    (run unmarshal a [.selected node, .fetched 0 httpGet, .drain]).details =
      (Update.ofResult (fetchPokemonDetails httpGet unmarshal E.URL)).render ∧
    (∀ err, fetchPokemonDetails httpGet unmarshal E.URL = .error err →
      (Update.ofResult (fetchPokemonDetails httpGet unmarshal E.URL)).writes = [errorText err]) ∧
    (∀ d, fetchPokemonDetails httpGet unmarshal E.URL = .ok d →
      (Update.ofResult (fetchPokemonDetails httpGet unmarshal E.URL)).writes
        = headerText d :: d.Stats.map statText) := by
  refine ⟨?_, ?_, ?_, ?_, ?_, ?_⟩
  · simp only [step, Event.ctx]
    rw [selected_leaf_eq _ a node E href]
    rfl
  · simp only [step, Event.ctx]
    rw [selected_leaf_eq _ a node E href]
    rfl
  · rw [isolated_run_eq unmarshal a node E httpGet href htasks hupd]
    rfl
  · rw [isolated_run_eq unmarshal a node E httpGet href htasks hupd]
  · intro err h
    rw [h]; rfl
  · intro d h
    rw [h]; rfl

/-- Witness of C7: the first selection of a run, answered with status 404. -/
theorem isolated_selection_order_witness :
    (run (fun _ => .ok PokemonDetails.zero) App.init
      [.selected (leafNode ⟨str "pikachu", str "u"⟩), .fetched 0 (fun _ => .ok ⟨404, .ok []⟩),
        .drain]).details =
      (Update.ofResult (fetchPokemonDetails (fun _ => .ok ⟨404, .ok []⟩)
        (fun _ => .ok PokemonDetails.zero) (str "u"))).render :=
  (isolated_selection_order (fun _ => .ok PokemonDetails.zero) App.init
    (leafNode ⟨str "pikachu", str "u"⟩) ⟨str "pikachu", str "u"⟩
    (fun _ => .ok ⟨404, .ok []⟩) rfl rfl rfl).2.2.2.1

/-- C8 as stated fails: when `http.Get` returns an error whose text holds a line break,
`fetchPokemonDetails` returns that error and the drained update leaves a pane of two
lines, not a single-line message; only the label "Error:" stands between the colour tags
`[red]` and `[-]`, the description follows in the default style, and no kind of error is
written. -/
theorem error_text_with_line_break :
    fetchPokemonDetails (fun _ => .error ⟨str "Get: first line\nsecond line"⟩)
      (fun _ => .ok PokemonDetails.zero) (str "u")
      = .error ⟨str "Get: first line\nsecond line"⟩ ∧
    (run (fun _ => .ok PokemonDetails.zero) App.init
      [.selected (leafNode ⟨str "pikachu", str "u"⟩),
        .fetched 0 (fun _ => .error ⟨str "Get: first line\nsecond line"⟩), .drain]).details
      = str "[red]Error:[-] Get: first line\nsecond line" ∧
    lineBreaks (run (fun _ => .ok PokemonDetails.zero) App.init
      [.selected (leafNode ⟨str "pikachu", str "u"⟩),
        .fetched 0 (fun _ => .error ⟨str "Get: first line\nsecond line"⟩), .drain]).details
      = 1 := by
  refine ⟨rfl, ?_, ?_⟩ <;> decide

/-- C8, amended: when the fetch of an isolated selection returns an error, the run made
exactly one call of `fetchPokemonDetails` (for the entry's URL), the drained update
performed a clear and one write, the pane holds exactly "[red]Error:[-] " followed by the
error text (the label "Error:" tagged red, then the description, no kind), with the line
breaks of the error text and no other, so on a single line when the error text is;
nothing is left in flight, and a following selection whose fetch succeeds leaves the pane
with the render of its record, the same content as if the failed selection had not taken
place. -/
theorem failed_fetch_renders_error (unmarshal : GoString → Except GoError PokemonDetails)
    (a : App) (node node' : TreeNode) (E E' : PokemonListEntry)
    (httpGet httpGet' : GoString → Except GoError Response) (err : GoError) (d : PokemonDetails)
    (href : node.reference = some E) (href' : node'.reference = some E')
    (htasks : a.tasks = []) (hupd : a.updates = [])
    (herr : fetchPokemonDetails httpGet unmarshal E.URL = .error err)
    (hok : fetchPokemonDetails httpGet' unmarshal E'.URL = .ok d) :
    (run unmarshal a [.selected node, .fetched 0 httpGet, .drain]).fetches
      = a.fetches ++ [E.URL] ∧
    (run unmarshal a [.selected node, .fetched 0 httpGet, .drain]).trace = a.trace ++
      [(Ctx.ui, PaneOp.clear), (Ctx.ui, PaneOp.write (loadingText E)), (Ctx.ui, PaneOp.clear),
        (Ctx.ui, PaneOp.write (str "[red]Error:[-] " ++ err.msg))] ∧
    (run unmarshal a [.selected node, .fetched 0 httpGet, .drain]).details
      = str "[red]Error:[-] " ++ err.msg ∧
    lineBreaks (run unmarshal a [.selected node, .fetched 0 httpGet, .drain]).details
      = lineBreaks err.msg ∧
    (lineBreaks err.msg = 0 →
      lineBreaks (run unmarshal a [.selected node, .fetched 0 httpGet, .drain]).details = 0) ∧
    (run unmarshal a [.selected node, .fetched 0 httpGet, .drain]).tasks = [] ∧
    (run unmarshal a [.selected node, .fetched 0 httpGet, .drain]).updates = [] ∧
    (run unmarshal (run unmarshal a [.selected node, .fetched 0 httpGet, .drain])
        [.selected node', .fetched 0 httpGet', .drain]).details
      = (headerText d :: d.Stats.map statText).flatten ∧
    (run unmarshal (run unmarshal a [.selected node, .fetched 0 httpGet, .drain])
        [.selected node', .fetched 0 httpGet', .drain]).details
      = (run unmarshal a [.selected node', .fetched 0 httpGet', .drain]).details := by
  have h1 := isolated_run_eq unmarshal a node E httpGet href htasks hupd
  rw [herr] at h1
  have hr : (Update.ofResult (Except.error err)).render = errorText err := by
    simp [Update.ofResult, Update.render, Update.writes]
  have h2 := isolated_run_eq unmarshal (run unmarshal a [.selected node, .fetched 0 httpGet, .drain])
    node' E' httpGet' href' (by rw [h1]; exact htasks) (by rw [h1]; exact hupd)
  have h3 := isolated_run_eq unmarshal a node' E' httpGet' href' htasks hupd
  have hlb : lineBreaks (run unmarshal a [.selected node, .fetched 0 httpGet, .drain]).details
      = lineBreaks err.msg := by
    rw [h1]; show lineBreaks (Update.ofResult (Except.error err)).render = _
    rw [hr]; exact lineBreaks_errorText err
  refine ⟨by rw [h1], ?_, ?_, hlb, fun h0 => hlb.trans h0, by rw [h1]; exact htasks,
    by rw [h1]; exact hupd, ?_, ?_⟩
  · rw [h1]; simp [Update.ofResult, Update.writes, errorText]
  · rw [h1]; exact hr
  · rw [h2, hok]; rfl
  · rw [h2, h3]

/-- Witness of C8: a selection answered with status 404, then one answered with status
200 and a body decoding to the zero record. -/
theorem failed_fetch_renders_error_witness :
    (run (fun _ => .ok PokemonDetails.zero) App.init
      [.selected (leafNode ⟨str "pikachu", str "u"⟩), .fetched 0 (fun _ => .ok ⟨404, .ok []⟩),
        .drain]).details = str "[red]Error:[-] " ++ (statusError 404).msg :=
  (failed_fetch_renders_error (fun _ => .ok PokemonDetails.zero) App.init
    (leafNode ⟨str "pikachu", str "u"⟩) (leafNode ⟨str "pichu", str "v"⟩)
    ⟨str "pikachu", str "u"⟩ ⟨str "pichu", str "v"⟩
    (fun _ => .ok ⟨404, .ok []⟩) (fun _ => .ok ⟨200, .ok []⟩) (statusError 404)
    PokemonDetails.zero rfl rfl rfl rfl rfl rfl).2.2.1

theorem step_trace (unmarshal : GoString → Except GoError PokemonDetails) (a : App)
    (ev : Event) :
    ∃ ops, (step unmarshal a ev).trace = a.trace ++ ops ∧ ∀ op ∈ ops, op.1 = Ctx.ui := by
  cases ev with
  | selected node =>
    cases href : node.reference with
    | none => exact ⟨[], by simp [step, selectedFunc, href], by simp⟩
    | some E =>
      refine ⟨[(Ctx.ui, PaneOp.clear), (Ctx.ui, PaneOp.write (loadingText E))], ?_, by simp⟩
      simp only [step, Event.ctx]
      rw [selected_leaf_eq _ a node E href]
  | fetched i httpGet =>
    refine ⟨[], ?_, by simp⟩
    simp only [step]
    cases a.tasks[i]? with
    | none => simp
    | some entry => simp [goroutineBody]
  | drain =>
    cases hupd : a.updates with
    | nil => exact ⟨[], by simp [step, hupd], by simp⟩
    | cons u rest =>
      refine ⟨(Ctx.ui, PaneOp.clear) :: u.writes.map (fun w => (Ctx.ui, PaneOp.write w)), ?_, ?_⟩
      · simp only [step, hupd, Event.ctx]
        rw [runUpdate_eq]
      · intro op hop
        rcases List.mem_cons.mp hop with h | h
        · rw [h]
        · obtain ⟨w, _, rfl⟩ := List.mem_map.mp h
          rfl

theorem run_trace (unmarshal : GoString → Except GoError PokemonDetails) :
    ∀ (evs : List Event) (a : App), (∀ op ∈ a.trace, op.1 = Ctx.ui) →
      ∀ op ∈ (run unmarshal a evs).trace, op.1 = Ctx.ui
  | [], _, h => h
  | ev :: evs, a, h => by
    have hstep : ∀ op ∈ (step unmarshal a ev).trace, op.1 = Ctx.ui := by
      obtain ⟨ops, heq, hops⟩ := step_trace unmarshal a ev
      intro op hop
      rw [heq, List.mem_append] at hop
      rcases hop with h1 | h1
      · exact h op h1
      · exact hops op h1
    exact run_trace unmarshal evs (step unmarshal a ev) hstep

/-- C9: in every run every clear and every write of the detail pane was performed on the
context of the event loop; the body of the goroutine, on whatever context it runs, leaves
the pane and its history untouched: it makes one call of `fetchPokemonDetails` and
enqueues one update; the step of a returning fetch is that body or nothing. -/
theorem pane_mutated_only_on_ui (unmarshal : GoString → Except GoError PokemonDetails)
    (evs : List Event) :
    (∀ op ∈ (run unmarshal App.init evs).trace, op.1 = Ctx.ui) ∧
    (∀ (ctx : Ctx) (a : App) (entry : PokemonListEntry)
        (httpGet : GoString → Except GoError Response),
      (goroutineBody ctx httpGet unmarshal a entry).details = a.details ∧
      (goroutineBody ctx httpGet unmarshal a entry).trace = a.trace ∧
      (goroutineBody ctx httpGet unmarshal a entry).fetches = a.fetches ++ [entry.URL] ∧
      (goroutineBody ctx httpGet unmarshal a entry).updates = a.updates ++
        [Update.ofResult (fetchPokemonDetails httpGet unmarshal entry.URL)]) ∧
    (∀ (a : App) (i : Nat) (httpGet : GoString → Except GoError Response),
      (step unmarshal a (.fetched i httpGet)).details = a.details ∧
      (step unmarshal a (.fetched i httpGet)).trace = a.trace) := by
  refine ⟨run_trace unmarshal evs App.init (by simp [App.init]), ?_, ?_⟩
  · intro ctx a entry httpGet
    exact ⟨rfl, rfl, rfl, rfl⟩
  · intro a i httpGet
    simp only [step]
    cases a.tasks[i]? with
    | none => exact ⟨rfl, rfl⟩
    | some entry => exact ⟨rfl, rfl⟩

theorem step_inv (unmarshal : GoString → Except GoError PokemonDetails) (a : App) (ev : Event)
    (h : a.tasks = [] → a.updates = [] →
      a.details = (match a.lastDrawn with | some u => u.render | none => [])) :
    (step unmarshal a ev).tasks = [] → (step unmarshal a ev).updates = [] →
      (step unmarshal a ev).details =
        (match (step unmarshal a ev).lastDrawn with | some u => u.render | none => []) := by
  cases ev with
  | selected node =>
    cases href : node.reference with
    | none =>
      have : step unmarshal a (.selected node) = a := by simp [step, selectedFunc, href]
      rw [this]; exact h
    | some E =>
      simp only [step, Event.ctx]
      rw [selected_leaf_eq _ a node E href]
      intro ht
      simp at ht
  | fetched i httpGet =>
    simp only [step]
    cases a.tasks[i]? with
    | none => exact h
    | some entry =>
      intro _ hu
      simp [goroutineBody] at hu
  | drain =>
    rcases hupd : a.updates with _ | ⟨u, rest⟩
    ·
      have : step unmarshal a .drain = a := by simp [step, hupd]
      rw [this]; exact h
    · simp only [step, hupd, Event.ctx]
      rw [runUpdate_eq]
      intro _ _
      rfl

theorem run_inv (unmarshal : GoString → Except GoError PokemonDetails) :
    ∀ (evs : List Event) (a : App),
      (a.tasks = [] → a.updates = [] →
        a.details = (match a.lastDrawn with | some u => u.render | none => [])) →
      (run unmarshal a evs).tasks = [] → (run unmarshal a evs).updates = [] →
        (run unmarshal a evs).details =
          (match (run unmarshal a evs).lastDrawn with | some u => u.render | none => [])
  | [], _, h => h
  | ev :: evs, a, h => run_inv unmarshal evs (step unmarshal a ev) (step_inv unmarshal a ev h)

/-- C10: in every run that ends with no fetch in flight and no update queued, the detail
pane holds exactly the render of the update drained last (it is empty when none was
drained); for the selections A then B with the fetch of B returning first, the pane ends
with the render of the fetch of A while B is the entry selected last. -/
theorem last_drained_update_wins (unmarshal : GoString → Except GoError PokemonDetails)
    (evs : List Event)
    (htasks : (run unmarshal App.init evs).tasks = [])
    (hupd : (run unmarshal App.init evs).updates = []) :
    (run unmarshal App.init evs).details =
      (match (run unmarshal App.init evs).lastDrawn with
        | some u => u.render
        | none => []) ∧
    ∀ (A B : PokemonListEntry) (netA netB : GoString → Except GoError Response),
      (run unmarshal App.init [.selected (leafNode A), .selected (leafNode B),
          .fetched 1 netB, .fetched 0 netA, .drain, .drain]).details
        = (Update.ofResult (fetchPokemonDetails netA unmarshal A.URL)).render ∧
      (run unmarshal App.init [.selected (leafNode A), .selected (leafNode B),
          .fetched 1 netB, .fetched 0 netA, .drain, .drain]).current = some B ∧
      (run unmarshal App.init [.selected (leafNode A), .selected (leafNode B),
          .fetched 1 netB, .fetched 0 netA, .drain, .drain]).lastDrawn
        = some (Update.ofResult (fetchPokemonDetails netA unmarshal A.URL)) ∧
      (run unmarshal App.init [.selected (leafNode A), .selected (leafNode B),
          .fetched 1 netB, .fetched 0 netA, .drain, .drain]).tasks = [] ∧
      (run unmarshal App.init [.selected (leafNode A), .selected (leafNode B),
          .fetched 1 netB, .fetched 0 netA, .drain, .drain]).updates = [] := by
  refine ⟨run_inv unmarshal evs App.init (fun _ _ => rfl) htasks hupd, ?_⟩
  intro A B netA netB
  have hrun : run unmarshal App.init [.selected (leafNode A), .selected (leafNode B),
      .fetched 1 netB, .fetched 0 netA, .drain, .drain] =
      runUpdate Ctx.ui
        { (runUpdate Ctx.ui
            { details := loadingText B
              trace := [(Ctx.ui, PaneOp.clear), (Ctx.ui, PaneOp.write (loadingText A)),
                (Ctx.ui, PaneOp.clear), (Ctx.ui, PaneOp.write (loadingText B))]
              tasks := []
              updates := [Update.ofResult (fetchPokemonDetails netA unmarshal A.URL)]
              fetches := [B.URL, A.URL]
              lastDrawn := some (Update.ofResult (fetchPokemonDetails netB unmarshal B.URL))
              current := some B }
            (Update.ofResult (fetchPokemonDetails netB unmarshal B.URL))) with
          updates := []
          lastDrawn := some (Update.ofResult (fetchPokemonDetails netA unmarshal A.URL)) }
        (Update.ofResult (fetchPokemonDetails netA unmarshal A.URL)) := by
    simp [run, step, Event.ctx, selectedFunc, leafNode, TreeNode.reference, App.init,
      App.clearDetails, App.writeDetails, goroutineBody, runUpdate_eq]
  rw [hrun, runUpdate_eq, runUpdate_eq]
  exact ⟨rfl, rfl, rfl, rfl, rfl⟩

/-- Witness of C10: two selections, the second fetch returning first (status 404), the
first returning with the zero record. -/
theorem last_drained_update_wins_witness :
    (run (fun _ => .ok PokemonDetails.zero) App.init
      [.selected (leafNode ⟨str "abra", str "a"⟩), .selected (leafNode ⟨str "bulbasaur", str "b"⟩),
        .fetched 1 (fun _ => .ok ⟨404, .ok []⟩), .fetched 0 (fun _ => .ok ⟨200, .ok []⟩),
        .drain, .drain]).details =
      (match (run (fun _ => .ok PokemonDetails.zero) App.init
        [.selected (leafNode ⟨str "abra", str "a"⟩),
          .selected (leafNode ⟨str "bulbasaur", str "b"⟩),
          .fetched 1 (fun _ => .ok ⟨404, .ok []⟩), .fetched 0 (fun _ => .ok ⟨200, .ok []⟩),
          .drain, .drain]).lastDrawn with
        | some u => u.render
        | none => []) :=
  (last_drained_update_wins (fun _ => .ok PokemonDetails.zero)
    [.selected (leafNode ⟨str "abra", str "a"⟩), .selected (leafNode ⟨str "bulbasaur", str "b"⟩),
      .fetched 1 (fun _ => .ok ⟨404, .ok []⟩), .fetched 0 (fun _ => .ok ⟨200, .ok []⟩),
      .drain, .drain] rfl rfl).1

end PokeApiTui
